import Mathlib

/-!
Verification of the pixel-comparison engine of the `diffimg` library
(`src/lib.rs`): the per-byte absolute difference `abs_diff`, the
vectorized difference-ratio computation `calculate_diff_ratio`, the
compatibility validator `validate_image_compatibility`, and the diff-image
generator `create_diff_image`.

Modelling conventions.

* Byte buffers (`Vec<u8>` / `raw_pixels()`) are `List ℕ`, with the
  hypothesis `v < 256` carried where a theorem needs the 8-bit range.
* `u64` arithmetic is `ℕ` with an explicit `% 2 ^ 64` at every operation
  the source performs on a `u64` (the running `diffsum` accumulation and
  the `total_possible` multiplication).
* The `f64` division `diffsum as f64 / total_possible as f64` divides two
  integer-valued quantities; it is modelled as exact division in `ℚ`.
  IEEE-754 `0.0 / 0.0` is NaN, modelled by the dedicated `DiffResult.nan`
  value (reachable exactly when `total_possible = 0`).  For nonzero
  denominators the real `f64` result is the rounding of the modelled
  rational, and two runs that produce the same `(diffsum, total_possible)`
  pair produce bit-identical doubles.
* A Rust panic (the out-of-bounds slice `&image1[i..i+32]`) is the
  `DiffResult.panic` value: the function never returns a number on such
  inputs.
* The `image` crate is an external collaborator.  A `DynamicImage` is
  modelled as the data the crate exposes: width, height, a color layout
  tag and the flat row-major channel-interleaved byte sequence, together
  with the crate's accessor semantics (`get_pixel` as the RGBA-converted
  view, `put_pixel` writing through the image's own layout).  Only 8-bit
  layouts are constructible by the crate's `DynamicImage`, so theorems
  about unreachable bit depths carry a `depth = 8` hypothesis.
-/

namespace Diffimg

/-- `abs_diff` from `src/lib.rs`: `if x > y { x - y } else { y - x }` on `u8`.
Truncated `ℕ` subtraction agrees with `u8` subtraction on the taken branch,
so no wrap-around modelling is needed. -/
def abs_diff (x y : ℕ) : ℕ :=
  if x > y then x - y else y - x

/-- Result of `calculate_diff_ratio`: either a panic (the out-of-bounds
32-byte slice), an IEEE NaN (the `0.0 / 0.0` division), or a finite ratio
modelled as an exact rational. -/
inductive DiffResult where
  | panic : DiffResult
  | nan : DiffResult
  | val (q : ℚ) : DiffResult
deriving DecidableEq

/-- One 64-bit lane of `_mm256_sad_epu8`: the sum of absolute differences
of eight consecutive bytes starting at offset `i`. -/
def sadLane (b1 b2 : List ℕ) (i : ℕ) : ℕ :=
  ∑ j in Finset.range 8, abs_diff (b1.getD (i + j) 0) (b2.getD (i + j) 0)

/-- The value `a + b + c + d` obtained in the source by transmuting the
`_mm256_sad_epu8` result into four `u64` lane sums and adding them:
the sum of absolute differences of the 32 bytes starting at offset `i`.
Each lane sum is at most `8 * 255`, so the `u64` additions cannot wrap. -/
def sadChunk (b1 b2 : List ℕ) (i : ℕ) : ℕ :=
  sadLane b1 b2 i + sadLane b1 b2 (i + 8) + sadLane b1 b2 (i + 16) +
    sadLane b1 b2 (i + 24)

/-- The loop `for i in (0..len).step_by(32)` of `calculate_diff_ratio`.
`acc` is the running `diffsum : u64` (hence the `% 2 ^ 64`).  Each
iteration takes the slices `&image1[i..i+32]` and `&image2[i..i+32]`,
which panic (`none`) unless `i + 32` is within both buffers. -/
def diffLoop (b1 b2 : List ℕ) (len i acc : ℕ) : Option ℕ :=
  if i < len then
    if i + 32 ≤ b1.length ∧ i + 32 ≤ b2.length then
      diffLoop b1 b2 len (i + 32) ((acc + sadChunk b1 b2 i) % 2 ^ 64)
    else
      none
  else
    some acc
termination_by len - i
decreasing_by omega

/-- `calculate_diff_ratio` on the two raw pixel buffers (the body of the
source function after the two `raw_pixels()` calls).  `max_val` is
`u64::pow(2, 8) - 1`; `total_possible = max_val * image1.len()` is a `u64`
product; the final `f64` division is exact rational division, with the
denominator-zero case producing NaN. -/
def calculate_diff_ratio_raw (image1 image2 : List ℕ) : DiffResult :=
  let max_val : ℕ := 2 ^ 8 - 1
  let len := min image1.length image2.length
  match diffLoop image1 image2 len 0 0 with
  | none => .panic
  | some diffsum =>
    let total_possible : ℕ := max_val * image1.length % 2 ^ 64
    if total_possible = 0 then .nan
    else .val ((diffsum : ℚ) / (total_possible : ℚ))

/-- Modelled from the spec: the scalar per-byte reference algorithm of
§4.2/§9, `sum over i < n of abs_diff(buffer1[i], buffer2[i])`, against
which the vectorized reduction is compared. -/
def scalarDiffSum (b1 b2 : List ℕ) (n : ℕ) : ℕ :=
  ∑ i in Finset.range n, abs_diff (b1.getD i 0) (b2.getD i 0)

/-- `image::ColorType` of the external `image` crate (version 0.21, the one
the source matches on): each variant carries its channel bit depth.  The
crate's `DynamicImage::color()` only ever returns the 8-bit variants. -/
inductive ColorType where
  | Gray (depth : ℕ)
  | GrayA (depth : ℕ)
  | RGB (depth : ℕ)
  | RGBA (depth : ℕ)
  | BGR (depth : ℕ)
  | BGRA (depth : ℕ)
  | Palette (depth : ℕ)
deriving DecidableEq

/-- The `Debug` rendering of a `ColorType`, as interpolated by
`format!("color mode {:?} not yet supported", ...)`. -/
def colorTypeRepr : ColorType → String
  | .Gray d => "Gray(" ++ toString d ++ ")"
  | .GrayA d => "GrayA(" ++ toString d ++ ")"
  | .RGB d => "RGB(" ++ toString d ++ ")"
  | .RGBA d => "RGBA(" ++ toString d ++ ")"
  | .BGR d => "BGR(" ++ toString d ++ ")"
  | .BGRA d => "BGRA(" ++ toString d ++ ")"
  | .Palette d => "Palette(" ++ toString d ++ ")"

/-- The bit depth carried by a `ColorType` variant.  For every layout a
`DynamicImage` can actually hold, the depth is 8. -/
def ColorType.depth : ColorType → ℕ
  | .Gray d | .GrayA d | .RGB d | .RGBA d | .BGR d | .BGRA d | .Palette d => d

/-- Number of byte channels a pixel occupies in the flat buffer. -/
def ColorType.channelCount : ColorType → ℕ
  | .Gray _ => 1
  | .GrayA _ => 2
  | .RGB _ => 3
  | .RGBA _ => 4
  | .BGR _ => 3
  | .BGRA _ => 4
  | .Palette _ => 1

/-- A decoded `image::DynamicImage`: width, height, color layout and the
flat row-major channel-interleaved byte sequence (`raw_pixels()`).
Invariant of real images (not imposed on the type):
`data.length = width * height * color.channelCount`. -/
structure DynamicImage where
  width : ℕ
  height : ℕ
  color : ColorType
  data : List ℕ
deriving DecidableEq

/-- `GenericImageView::get_pixel` of a `DynamicImage` followed by the
crate's conversion of the stored pixel to `Rgba<u8>` (`.data[c]` in the
source reads the four RGBA channels).  The pixel at `(x, y)` starts at
byte `(y * width + x) * channelCount`; missing color channels are
replicated gray, a missing alpha channel reads as 255, and BGR layouts
swap channels 0 and 2.  An out-of-bounds byte reads as 0 here (the crate
would panic; callers in this file only read in bounds on the inputs the
claims quantify over). -/
def get_pixel (img : DynamicImage) (x y : ℕ) : Fin 4 → ℕ :=
  let base := (y * img.width + x) * img.color.channelCount
  let byte := fun (j : ℕ) => (img.data[base + j]?).getD 0
  match img.color with
  | .Gray _ => fun c => if c.val = 3 then 255 else byte 0
  | .GrayA _ => fun c => if c.val = 3 then byte 1 else byte 0
  | .RGB _ => fun c => if c.val = 3 then 255 else byte c.val
  | .RGBA _ => fun c => byte c.val
  | .BGR _ => fun c =>
      if c.val = 0 then byte 2 else if c.val = 1 then byte 1
      else if c.val = 2 then byte 0 else 255
  | .BGRA _ => fun c =>
      if c.val = 0 then byte 2 else if c.val = 1 then byte 1
      else if c.val = 2 then byte 0 else byte 3
  | .Palette _ => fun c => if c.val = 3 then 255 else byte 0

/-- Write the bytes `vs` into `d` at consecutive positions starting at
`base` (the in-place store of one pixel's channels). -/
def writeChans (d : List ℕ) (base : ℕ) : List ℕ → List ℕ
  | [] => d
  | v :: vs => writeChans (d.set base v) (base + 1) vs

/-- `GenericImage::put_pixel` of a `DynamicImage` for an `Rgba<u8>` pixel
`p`: an RGB-8 image stores `p.to_rgb()` (alpha dropped), an RGBA-8 image
stores all four channels.  `create_diff_image` only ever writes into the
`new_rgb8` / `new_rgba8` image it allocated, so the remaining variants
(which would convert the pixel to their own layout) are never reached;
they are modelled as a no-op. -/
def put_pixel (img : DynamicImage) (x y : ℕ) (p : Fin 4 → ℕ) : DynamicImage :=
  match img.color with
  | .RGB _ =>
    { img with data := writeChans img.data ((y * img.width + x) * 3) [p 0, p 1, p 2] }
  | .RGBA _ =>
    { img with data := writeChans img.data ((y * img.width + x) * 4) [p 0, p 1, p 2, p 3] }
  | _ => img

/-- `DynamicImage::new_rgb8`: an RGB-8 image of the given size with all
bytes zero. -/
def new_rgb8 (w h : ℕ) : DynamicImage :=
  ⟨w, h, .RGB 8, List.replicate (w * h * 3) 0⟩

/-- `DynamicImage::new_rgba8`: an RGBA-8 image of the given size with all
bytes zero. -/
def new_rgba8 (w h : ℕ) : DynamicImage :=
  ⟨w, h, .RGBA 8, List.replicate (w * h * 4) 0⟩

/-- `validate_image_compatibility` from `src/lib.rs`: dimensions are
compared first, then the color mode. -/
def validate_image_compatibility (image1 image2 : DynamicImage) :
    Except String Unit :=
  if (image1.width, image1.height) ≠ (image2.width, image2.height) then
    .error "images must have the same dimensions"
  else if image1.color ≠ image2.color then
    .error "images must have the same color mode"
  else
    .ok ()

/-- The pixel value written at `(x, y)` by the inner loop of
`create_diff_image`: the `rgba` array of the four per-channel
`abs_diff`s of the two source pixels (always computed on the 4-channel
RGBA views returned by `get_pixel`). -/
def diffPixel (image1 image2 : DynamicImage) (x y : ℕ) : Fin 4 → ℕ :=
  fun c => abs_diff (get_pixel image1 x y c) (get_pixel image2 x y c)

/-- The `match image1.color()` allocating the output image of
`create_diff_image`, with the `_ => return Err(...)` arm. -/
def allocDiff (image1 : DynamicImage) : Except String DynamicImage :=
  match image1.color with
  | .RGB _ => .ok (new_rgb8 image1.width image1.height)
  | .RGBA _ => .ok (new_rgba8 image1.width image1.height)
  | c => .error ("color mode " ++ colorTypeRepr c ++ " not yet supported")

/-- The double loop `for x in 0..w { for y in 0..h { ... } }` of
`create_diff_image`, writing the diff pixel at every coordinate. -/
def writeLoop (image1 image2 : DynamicImage) (w h : ℕ)
    (diff : DynamicImage) : DynamicImage :=
  (List.range w).foldl
    (fun acc x =>
      (List.range h).foldl
        (fun acc2 y => put_pixel acc2 x y (diffPixel image1 image2 x y)) acc)
    diff

/-- `create_diff_image` from `src/lib.rs`.  The final `diff.save(filename)`
is external persistence (the codec collaborator); the model returns the
in-memory image that is handed to it.  On the error path no image is
built, so nothing is ever passed to the codec and no file is written. -/
def create_diff_image (image1 image2 : DynamicImage) :
    Except String DynamicImage :=
  match allocDiff image1 with
  | .error e => .error e
  | .ok diff => .ok (writeLoop image1 image2 image1.width image1.height diff)

/-- `calculate_diff_ratio` from `src/lib.rs` at the image level: the two
`raw_pixels()` buffers feed the chunked reduction. -/
def calculate_diff_ratio (image1 image2 : DynamicImage) : DiffResult :=
  calculate_diff_ratio_raw image1.data image2.data

theorem abs_diff_comm (x y : ℕ) : abs_diff x y = abs_diff y x := by
  unfold abs_diff
  split_ifs <;> omega

theorem abs_diff_self (x : ℕ) : abs_diff x x = 0 := by
  unfold abs_diff
  simp

theorem abs_diff_le_255 {x y : ℕ} (hx : x < 256) (hy : y < 256) :
    abs_diff x y ≤ 255 := by
  unfold abs_diff
  split_ifs <;> omega

theorem lane_Ico (b1 b2 : List ℕ) (m n : ℕ) (h : n = m + 8) :
    (∑ j in Finset.Ico m n, abs_diff (b1.getD j 0) (b2.getD j 0)) =
      sadLane b1 b2 m := by
  subst h
  rw [Finset.sum_Ico_eq_sum_range]
  have h8 : m + 8 - m = 8 := by omega
  rw [h8]
  rfl

theorem sadChunk_Ico (b1 b2 : List ℕ) (i n : ℕ) (h : n = i + 32) :
    (∑ j in Finset.Ico i n, abs_diff (b1.getD j 0) (b2.getD j 0)) =
      sadChunk b1 b2 i := by
  subst h
  rw [← Finset.sum_Ico_consecutive _ (by omega : i ≤ i + 8)
      (by omega : i + 8 ≤ i + 32),
    ← Finset.sum_Ico_consecutive _ (by omega : i + 8 ≤ i + 16)
      (by omega : i + 16 ≤ i + 32),
    ← Finset.sum_Ico_consecutive _ (by omega : i + 16 ≤ i + 24)
      (by omega : i + 24 ≤ i + 32),
    lane_Ico b1 b2 i (i + 8) (by omega), lane_Ico b1 b2 (i + 8) (i + 16) (by omega),
    lane_Ico b1 b2 (i + 16) (i + 24) (by omega),
    lane_Ico b1 b2 (i + 24) (i + 32) (by omega)]
  unfold sadChunk
  ring

theorem sadChunk_comm (b1 b2 : List ℕ) (i : ℕ) :
    sadChunk b1 b2 i = sadChunk b2 b1 i := by
  rw [← sadChunk_Ico b1 b2 i (i + 32) rfl, ← sadChunk_Ico b2 b1 i (i + 32) rfl]
  exact Finset.sum_congr rfl fun j _ => abs_diff_comm _ _

/-- The chunked loop with all guards passing computes, modulo `2 ^ 64`,
the scalar sum of per-byte absolute differences over `[i, len)`. -/
theorem diffLoop_modsum (b1 b2 : List ℕ) (len : ℕ) (hl1 : len ≤ b1.length)
    (hl2 : len ≤ b2.length) :
    ∀ k i acc, len - i = 32 * k → i ≤ len → acc < 2 ^ 64 →
      diffLoop b1 b2 len i acc =
        some ((acc + ∑ j in Finset.Ico i len,
          abs_diff (b1.getD j 0) (b2.getD j 0)) % 2 ^ 64) := by
  intro k
  induction k with
  | zero =>
    intro i acc hk hi hacc
    have hil : i = len := by omega
    subst hil
    rw [diffLoop, if_neg (lt_irrefl i), Finset.Ico_self, Finset.sum_empty,
      add_zero, Nat.mod_eq_of_lt hacc]
  | succ k ih =>
    intro i acc hk hi hacc
    have h32 : i + 32 ≤ len := by omega
    rw [diffLoop]
    rw [if_pos (by omega : i < len),
      if_pos ⟨le_trans h32 hl1, le_trans h32 hl2⟩]
    rw [ih (i + 32) _ (by omega) h32 (Nat.mod_lt _ (by norm_num))]
    rw [Nat.mod_add_mod]
    congr 2
    rw [← Finset.sum_Ico_consecutive
        (fun j => abs_diff (b1.getD j 0) (b2.getD j 0)) (by omega : i ≤ i + 32) h32,
      sadChunk_Ico b1 b2 i (i + 32) rfl]
    ring

/-- When the overlapping length is not yet exhausted and the remaining
byte count is not a multiple of 32, the loop reaches a 32-byte slice that
overruns the shorter buffer and panics. -/
theorem diffLoop_panic (b1 b2 : List ℕ) (len : ℕ)
    (hmin : len = min b1.length b2.length) :
    ∀ r i acc, len - i = r → i < len → ¬ (32 ∣ len - i) →
      diffLoop b1 b2 len i acc = none := by
  intro r
  induction r using Nat.strong_induction_on with
  | _ r ih =>
    intro i acc hr hi hnd
    by_cases hle : i + 32 ≤ len
    · rw [diffLoop, if_pos hi,
        if_pos ⟨le_trans hle (hmin ▸ min_le_left _ _),
          le_trans hle (hmin ▸ min_le_right _ _)⟩]
      exact ih (len - (i + 32)) (by omega) (i + 32) _ rfl (by omega) (by omega)
    · rw [diffLoop, if_pos hi, if_neg]
      intro ⟨hg1, hg2⟩
      have : i + 32 ≤ len := hmin ▸ le_min hg1 hg2
      omega

/-- The loop body is symmetric in the two buffers. -/
theorem diffLoop_comm (b1 b2 : List ℕ) (len : ℕ) :
    ∀ r i acc, len - i = r →
      diffLoop b1 b2 len i acc = diffLoop b2 b1 len i acc := by
  intro r
  induction r using Nat.strong_induction_on with
  | _ r ih =>
    intro i acc hr
    by_cases hi : i < len
    · conv_lhs => rw [diffLoop]
      conv_rhs => rw [diffLoop]
      simp only [if_pos hi]
      by_cases hg : i + 32 ≤ b1.length ∧ i + 32 ≤ b2.length
      · rw [if_pos hg,
          if_pos (show i + 32 ≤ b2.length ∧ i + 32 ≤ b1.length from ⟨hg.2, hg.1⟩),
          sadChunk_comm]
        exact ih (len - (i + 32)) (by omega) (i + 32) _ rfl
      · rw [if_neg hg,
          if_neg (show ¬(i + 32 ≤ b2.length ∧ i + 32 ≤ b1.length) from
            fun h => hg ⟨h.2, h.1⟩)]
    · conv_lhs => rw [diffLoop, if_neg hi]
      conv_rhs => rw [diffLoop, if_neg hi]

theorem getD_lt_256 {l : List ℕ} {i : ℕ} (hi : i < l.length)
    (hb : ∀ v ∈ l, v < 256) : l.getD i 0 < 256 := by
  rw [List.getD_eq_getElem?_getD, List.getElem?_eq_getElem hi, Option.getD_some]
  exact hb _ (List.getElem_mem hi)

theorem scalarDiffSum_le (b1 b2 : List ℕ) (n : ℕ) (hn1 : n ≤ b1.length)
    (hn2 : n ≤ b2.length) (hb1 : ∀ v ∈ b1, v < 256)
    (hb2 : ∀ v ∈ b2, v < 256) : scalarDiffSum b1 b2 n ≤ 255 * n := by
  unfold scalarDiffSum
  calc
    (∑ i in Finset.range n, abs_diff (b1.getD i 0) (b2.getD i 0)) ≤
        ∑ _i in Finset.range n, 255 :=
      Finset.sum_le_sum fun i hi =>
        abs_diff_le_255 (getD_lt_256 (by simp at hi; omega) hb1)
          (getD_lt_256 (by simp at hi; omega) hb2)
    _ = 255 * n := by simp [Finset.sum_const, mul_comm]

/-- C1: for equal-length byte buffers whose length is a positive multiple
of 32, the vectorized 32-byte sum-of-absolute-differences reduction
returns exactly the scalar per-byte reference sum divided by
`255 * len(buffer1)`.  (`hfit` records that `total_possible` does not
overflow `u64`, true of every realizable buffer.) -/
theorem calculate_diff_ratio_vectorized_eq_scalar (b1 b2 : List ℕ)
    (hlen : b1.length = b2.length) (hpos : 0 < b1.length)
    (hmul : b1.length % 32 = 0) (hb1 : ∀ v ∈ b1, v < 256)
    (hb2 : ∀ v ∈ b2, v < 256) (hfit : 255 * b1.length < 2 ^ 64) :
    calculate_diff_ratio_raw b1 b2 =
      .val ((scalarDiffSum b1 b2 b1.length : ℚ) /
        ((255 * b1.length : ℕ) : ℚ)) := by
  have hminl : min b1.length b2.length = b1.length := by omega
  obtain ⟨k, hk⟩ := Nat.dvd_of_mod_eq_zero hmul
  have hd := diffLoop_modsum b1 b2 b1.length (le_refl _) (hlen ▸ le_refl _)
    k 0 0 (by omega) (by omega) (by norm_num)
  have hsum : (0 + ∑ j in Finset.Ico 0 b1.length,
      abs_diff (b1.getD j 0) (b2.getD j 0)) = scalarDiffSum b1 b2 b1.length := by
    rw [zero_add, scalarDiffSum, Finset.range_eq_Ico]
  rw [hsum] at hd
  have hle : scalarDiffSum b1 b2 b1.length ≤ 255 * b1.length :=
    scalarDiffSum_le b1 b2 b1.length (le_refl _) (hlen ▸ le_refl _) hb1 hb2
  simp only [calculate_diff_ratio_raw, hminl, hd]
  rw [Nat.mod_eq_of_lt (lt_of_le_of_lt hle hfit)]
  have h255 : (2 ^ 8 - 1 : ℕ) = 255 := by norm_num
  rw [h255, Nat.mod_eq_of_lt hfit, if_neg (by positivity)]

/-- C1 witness: two concrete 32-byte buffers. -/
theorem calculate_diff_ratio_vectorized_eq_scalar_witness :
    calculate_diff_ratio_raw (List.replicate 32 3) (List.replicate 32 7) =
      .val ((scalarDiffSum (List.replicate 32 3) (List.replicate 32 7)
          (List.replicate 32 3).length : ℚ) /
        ((255 * (List.replicate 32 3).length : ℕ) : ℚ)) :=
  calculate_diff_ratio_vectorized_eq_scalar _ _ (by decide) (by decide)
    (by decide) (by decide) (by decide) (by decide)

/-- C2 (amended): whenever the overlapping length
`len = min(len(buffer1), len(buffer2))` is NOT a multiple of 32,
`calculate_diff_ratio` does not return at all: the chunk loop still
reaches the start of the trailing partial chunk and slicing
`[i..i+32]` there panics with an out-of-bounds index. -/
theorem calculate_diff_ratio_partial_chunk_panics (b1 b2 : List ℕ)
    (h : ¬ min b1.length b2.length % 32 = 0) :
    calculate_diff_ratio_raw b1 b2 = .panic := by
  have hpos : 0 < min b1.length b2.length := by omega
  have hp := diffLoop_panic b1 b2 (min b1.length b2.length) rfl
    (min b1.length b2.length) 0 0 (by omega) hpos (by omega)
  simp only [calculate_diff_ratio_raw, hp]

/-- C2 witness: two one-byte buffers make the loop panic. -/
theorem calculate_diff_ratio_partial_chunk_panics_witness :
    ¬ min (List.length [(5 : ℕ)]) (List.length [(6 : ℕ), 7]) % 32 = 0 ∧
      calculate_diff_ratio_raw [5] [6, 7] = DiffResult.panic :=
  ⟨by decide, calculate_diff_ratio_partial_chunk_panics [5] [6, 7] (by decide)⟩

/-- C2 counterexample: on the one-byte buffers `[0]` and `[0]` (overlap
length 1, not a multiple of 32) the function panics — it does not return
normally with the trailing bytes silently ignored, as the claim states. -/
theorem calculate_diff_ratio_trailing_bytes_counterexample :
    calculate_diff_ratio_raw [0] [0] = DiffResult.panic := by
  have hp := diffLoop_panic [0] [0] 1 (by simp) 1 0 0 (by simp) (by norm_num)
    (by decide)
  simp only [calculate_diff_ratio_raw, List.length_singleton, min_self, hp]

/-- C3 (amended): the function has no error return value, but on two
empty buffers `total_possible = 0` and the `0.0 / 0.0` division yields
IEEE NaN, not `0.0`. -/
theorem calculate_diff_ratio_empty_nan (b1 b2 : List ℕ)
    (h1 : b1.length = 0) (h2 : b2.length = 0) :
    calculate_diff_ratio_raw b1 b2 = .nan := by
  have hb1 : b1 = [] := List.length_eq_zero.mp h1
  have hb2 : b2 = [] := List.length_eq_zero.mp h2
  subst hb1
  subst hb2
  have hd : diffLoop [] [] 0 0 0 = some 0 := by
    rw [diffLoop, if_neg (lt_irrefl 0)]
  simp [calculate_diff_ratio_raw, hd]

/-- C3 witness: the two empty buffers. -/
theorem calculate_diff_ratio_empty_nan_witness :
    List.length ([] : List ℕ) = 0 ∧
      calculate_diff_ratio_raw [] [] = DiffResult.nan :=
  ⟨rfl, calculate_diff_ratio_empty_nan [] [] rfl rfl⟩

/-- C3 counterexample: on two length-0 buffers the result is the NaN of
`0.0 / 0.0`, which is not the ratio `0.0` the claim promises. -/
theorem calculate_diff_ratio_zero_denominator_counterexample :
    calculate_diff_ratio_raw [] [] = DiffResult.nan ∧
      DiffResult.nan ≠ DiffResult.val 0 := by
  constructor
  · have hd : diffLoop [] [] 0 0 0 = some 0 := by
      rw [diffLoop, if_neg (lt_irrefl 0)]
    simp [calculate_diff_ratio_raw, hd]
  · decide

/-- C7 (amended): the difference ratio is symmetric in its two arguments
whenever the two buffers have the same length (the denominator
`255 * len(buffer1)` then agrees between the two orders; the numerator,
panic and NaN behaviors are always symmetric). -/
theorem calculate_diff_ratio_symm_of_eq_length (b1 b2 : List ℕ)
    (h : b1.length = b2.length) :
    calculate_diff_ratio_raw b1 b2 = calculate_diff_ratio_raw b2 b1 := by
  simp only [calculate_diff_ratio_raw]
  rw [min_comm b2.length b1.length,
    diffLoop_comm b1 b2 (min b1.length b2.length)
      (min b1.length b2.length - 0) 0 0 rfl, h]

/-- C7 witness: two equal-length 32-byte buffers. -/
theorem calculate_diff_ratio_symm_of_eq_length_witness :
    (List.replicate 32 (9 : ℕ)).length = (List.replicate 32 (4 : ℕ)).length ∧
      calculate_diff_ratio_raw (List.replicate 32 9) (List.replicate 32 4) =
        calculate_diff_ratio_raw (List.replicate 32 4) (List.replicate 32 9) :=
  ⟨by decide, calculate_diff_ratio_symm_of_eq_length _ _ (by decide)⟩

/-- C7 counterexample: a 32-byte all-255 buffer against a 33-byte all-0
buffer.  Both orders sum the same 32 overlapping bytes, but the
denominator is `255 * 32` in one order and `255 * 33` in the other, so
the two ratios are `1` and `32/33`. -/
theorem calculate_diff_ratio_symm_counterexample :
    calculate_diff_ratio_raw (List.replicate 32 255) (List.replicate 33 0) ≠
      calculate_diff_ratio_raw (List.replicate 33 0) (List.replicate 32 255) := by
  have h1 := diffLoop_modsum (List.replicate 32 255) (List.replicate 33 0) 32
    (by simp) (by simp) 1 0 0 (by norm_num) (by norm_num) (by norm_num)
  have h2 := diffLoop_modsum (List.replicate 33 0) (List.replicate 32 255) 32
    (by simp) (by simp) 1 0 0 (by norm_num) (by norm_num) (by norm_num)
  have hs1 : (0 + ∑ j in Finset.Ico 0 32,
      abs_diff ((List.replicate 32 255).getD j 0)
        ((List.replicate 33 0).getD j 0)) % 2 ^ 64 = 8160 := by decide
  have hs2 : (0 + ∑ j in Finset.Ico 0 32,
      abs_diff ((List.replicate 33 0).getD j 0)
        ((List.replicate 32 255).getD j 0)) % 2 ^ 64 = 8160 := by decide
  rw [hs1] at h1
  rw [hs2] at h2
  simp only [calculate_diff_ratio_raw, List.length_replicate]
  rw [show min 32 33 = 32 from by norm_num, show min 33 32 = 32 from by norm_num,
    h1, h2]
  norm_num

/-- C8 (amended): `calculate_diff_ratio(img, img)` returns exactly `0.0`
when the raw buffer length is a positive multiple of 32 (and
`255 * len` fits in `u64`).  For other lengths self-comparison does not
return `0.0`: a length that is not a multiple of 32 panics (see the
counterexample: any 1×1 RGB image), and length 0 yields NaN. -/
theorem calculate_diff_ratio_self (img : DynamicImage)
    (hmul : img.data.length % 32 = 0) (hpos : 0 < img.data.length)
    (hfit : 255 * img.data.length < 2 ^ 64) :
    calculate_diff_ratio img img = .val 0 := by
  unfold calculate_diff_ratio
  obtain ⟨k, hk⟩ := Nat.dvd_of_mod_eq_zero hmul
  have hd := diffLoop_modsum img.data img.data img.data.length (le_refl _)
    (le_refl _) k 0 0 (by omega) (by omega) (by norm_num)
  have hz : (∑ j in Finset.Ico 0 img.data.length,
      abs_diff (img.data.getD j 0) (img.data.getD j 0)) = 0 :=
    Finset.sum_eq_zero fun j _ => abs_diff_self _
  rw [hz, add_zero, Nat.zero_mod] at hd
  simp only [calculate_diff_ratio_raw, min_self, hd]
  have h255 : (2 ^ 8 - 1 : ℕ) = 255 := by norm_num
  rw [h255, Nat.mod_eq_of_lt hfit, if_neg (by positivity)]
  simp

/-- C8 witness: a 4×2 RGBA image (32 raw bytes) diffed with itself. -/
theorem calculate_diff_ratio_self_witness :
    (DynamicImage.mk 4 2 (.RGBA 8) (List.replicate 32 5)).data.length % 32 = 0 ∧
      calculate_diff_ratio (DynamicImage.mk 4 2 (.RGBA 8) (List.replicate 32 5))
        (DynamicImage.mk 4 2 (.RGBA 8) (List.replicate 32 5)) = DiffResult.val 0 :=
  ⟨by decide,
    calculate_diff_ratio_self _ (by decide) (by decide) (by decide)⟩

/-- C8 counterexample: a 1×1 RGB image has a 3-byte buffer, so
`calculate_diff_ratio(img, img)` panics in the chunk loop instead of
returning `0.0`. -/
theorem calculate_diff_ratio_self_counterexample :
    calculate_diff_ratio (DynamicImage.mk 1 1 (.RGB 8) [7, 7, 7])
        (DynamicImage.mk 1 1 (.RGB 8) [7, 7, 7]) = DiffResult.panic ∧
      DiffResult.panic ≠ DiffResult.val 0 := by
  constructor
  · have hp := diffLoop_panic [7, 7, 7] [7, 7, 7] 3 (by simp) 3 0 0 (by simp)
      (by norm_num) (by decide)
    unfold calculate_diff_ratio
    simp only [calculate_diff_ratio_raw]
    simp only [show (DynamicImage.mk 1 1 (.RGB 8) [7, 7, 7]).data = [7, 7, 7]
      from rfl, List.length_cons, List.length_nil, min_self]
    rw [show (0 + 1 + 1 + 1 : ℕ) = 3 from by norm_num, hp]
  · decide

/-- C9: `abs_diff` on the 8-bit domain is the mathematical absolute
difference (no wrapping), is symmetric, vanishes on the diagonal, and
maps `(0, 255)` to `255`. -/
theorem abs_diff_spec (x y : ℕ) (hx : x < 256) (hy : y < 256) :
    ((abs_diff x y : ℤ) = |(x : ℤ) - (y : ℤ)|) ∧
      abs_diff x y = abs_diff y x ∧ abs_diff x x = 0 ∧
      abs_diff 0 255 = 255 := by
  refine ⟨?_, abs_diff_comm x y, abs_diff_self x, by decide⟩
  have h : abs_diff x y = ((x : ℤ) - (y : ℤ)).natAbs := by
    unfold abs_diff
    split_ifs <;> omega
  rw [h, ← Int.abs_eq_natAbs]

/-- C9 witness: the property at `x = 5`, `y = 8`. -/
theorem abs_diff_spec_witness :
    ((abs_diff 5 8 : ℤ) = |(5 : ℤ) - (8 : ℤ)|) ∧
      abs_diff 5 8 = abs_diff 8 5 ∧ abs_diff 5 5 = 0 ∧
      abs_diff 0 255 = 255 :=
  abs_diff_spec 5 8 (by decide) (by decide)

/-- C4: `validate_image_compatibility` succeeds exactly on equal width,
height and color layout; differing dimensions give the dimension error
(whatever the layouts); equal dimensions with differing layouts give the
color-mode error.  The dimension check is decided first. -/
theorem validate_image_compatibility_spec (image1 image2 : DynamicImage) :
    (validate_image_compatibility image1 image2 = .ok () ↔
      (image1.width = image2.width ∧ image1.height = image2.height ∧
        image1.color = image2.color)) ∧
    (¬(image1.width = image2.width ∧ image1.height = image2.height) →
      validate_image_compatibility image1 image2 =
        .error "images must have the same dimensions") ∧
    (image1.width = image2.width → image1.height = image2.height →
      image1.color ≠ image2.color →
      validate_image_compatibility image1 image2 =
        .error "images must have the same color mode") := by
  unfold validate_image_compatibility
  refine ⟨?_, ?_, ?_⟩ <;> split_ifs <;> simp_all [Prod.ext_iff]

/-- C4 witness: a 10×10 RGB image against itself, a 10×20 RGB image, and
a 10×10 RGBA image. -/
theorem validate_image_compatibility_spec_witness :
    validate_image_compatibility
        (DynamicImage.mk 10 10 (.RGB 8) (List.replicate 300 0))
        (DynamicImage.mk 10 10 (.RGB 8) (List.replicate 300 1)) = .ok () ∧
      validate_image_compatibility
        (DynamicImage.mk 10 10 (.RGB 8) (List.replicate 300 0))
        (DynamicImage.mk 10 20 (.RGB 8) (List.replicate 600 0)) =
          .error "images must have the same dimensions" ∧
      validate_image_compatibility
        (DynamicImage.mk 10 10 (.RGB 8) (List.replicate 300 0))
        (DynamicImage.mk 10 10 (.RGBA 8) (List.replicate 400 0)) =
          .error "images must have the same color mode" :=
  ⟨(validate_image_compatibility_spec _ _).1.mpr ⟨rfl, rfl, rfl⟩,
    (validate_image_compatibility_spec _ _).2.1 (by decide),
    (validate_image_compatibility_spec _ _).2.2 rfl rfl (by decide)⟩

theorem writeChans_length (d : List ℕ) (base : ℕ) (vs : List ℕ) :
    (writeChans d base vs).length = d.length := by
  induction vs generalizing d base with
  | nil => rfl
  | cons v vs ih =>
    simp only [writeChans]
    rw [ih, List.length_set]

theorem writeChans_getElem?_lt (vs : List ℕ) :
    ∀ (d : List ℕ) (base idx : ℕ), idx < base →
      (writeChans d base vs)[idx]? = d[idx]? := by
  induction vs with
  | nil => intro d base idx _; rfl
  | cons v vs ih =>
    intro d base idx h
    simp only [writeChans]
    rw [ih _ (base + 1) idx (by omega), List.getElem?_set_ne (by omega)]

theorem writeChans_getElem?_ge (vs : List ℕ) :
    ∀ (d : List ℕ) (base idx : ℕ), base + vs.length ≤ idx →
      (writeChans d base vs)[idx]? = d[idx]? := by
  induction vs with
  | nil => intro d base idx _; rfl
  | cons v vs ih =>
    intro d base idx h
    simp only [List.length_cons] at h
    simp only [writeChans]
    rw [ih _ (base + 1) idx (by omega), List.getElem?_set_ne (by omega)]

theorem writeChans_getElem?_hit (vs : List ℕ) :
    ∀ (d : List ℕ) (base j : ℕ), j < vs.length → base + vs.length ≤ d.length →
      (writeChans d base vs)[base + j]? = vs[j]? := by
  induction vs with
  | nil => intro d base j hj _; simp at hj
  | cons v vs ih =>
    intro d base j hj hin
    simp only [List.length_cons] at hj hin
    simp only [writeChans]
    cases j with
    | zero =>
      simp only [Nat.add_zero]
      rw [writeChans_getElem?_lt vs _ (base + 1) base (by omega),
        List.getElem?_set_self (by omega)]
      simp
    | succ j' =>
      rw [show base + (j' + 1) = (base + 1) + j' from by omega,
        ih _ (base + 1) j' (by omega) (by rw [List.length_set]; omega)]
      simp

theorem cell_disjoint {cw q q' j : ℕ} (hne : q ≠ q') (hj : j < cw) :
    q * cw + j < q' * cw ∨ q' * cw + cw ≤ q * cw + j := by
  rcases Nat.lt_or_ge q q' with h | h
  · left
    calc q * cw + j < q * cw + cw := by omega
    _ = (q + 1) * cw := by ring
    _ ≤ q' * cw := mul_le_mul_right' (by omega) cw
  · right
    calc q' * cw + cw = (q' + 1) * cw := by ring
    _ ≤ q * cw := mul_le_mul_right' (by omega) cw
    _ ≤ q * cw + j := by omega

theorem encode_ne_col {w x x' y y' : ℕ} (hx : x < w) (hx' : x' < w)
    (hne : x ≠ x') : y * w + x ≠ y' * w + x' := by
  intro h
  have h1 : (y * w + x) % w = x := by
    rw [add_comm, Nat.add_mul_mod_self_right, Nat.mod_eq_of_lt hx]
  have h2 : (y' * w + x') % w = x' := by
    rw [add_comm, Nat.add_mul_mod_self_right, Nat.mod_eq_of_lt hx']
  rw [h, h2] at h1
  exact hne h1.symm

theorem encode_ne_row {w x y y' : ℕ} (hw : 0 < w) (hne : y ≠ y') :
    y * w + x ≠ y' * w + x := by
  intro h
  have hm : y * w = y' * w := by omega
  exact hne (Nat.eq_of_mul_eq_mul_right hw hm)

/-- Proof-layer view of the inner `for y in 0..h` loop of
`create_diff_image` on the raw output buffer: the sequence of
`writeChans` stores it performs along column `x`. -/
def colData (vals : ℕ → ℕ → List ℕ) (w cw x : ℕ) (ys : List ℕ)
    (d : List ℕ) : List ℕ :=
  ys.foldl (fun acc y => writeChans acc ((y * w + x) * cw) (vals x y)) d

/-- Proof-layer view of the outer `for x in 0..w` loop of
`create_diff_image` on the raw output buffer. -/
def gridData (vals : ℕ → ℕ → List ℕ) (w cw : ℕ) (xs ys : List ℕ)
    (d : List ℕ) : List ℕ :=
  xs.foldl (fun acc x => colData vals w cw x ys acc) d

theorem colData_length (vals : ℕ → ℕ → List ℕ) (w cw x : ℕ) (ys : List ℕ)
    (d : List ℕ) : (colData vals w cw x ys d).length = d.length := by
  induction ys generalizing d with
  | nil => rfl
  | cons y ys ih =>
    simp only [colData, List.foldl_cons]
    rw [← colData, ih, writeChans_length]

theorem gridData_length (vals : ℕ → ℕ → List ℕ) (w cw : ℕ) (xs ys : List ℕ)
    (d : List ℕ) : (gridData vals w cw xs ys d).length = d.length := by
  induction xs generalizing d with
  | nil => rfl
  | cons x xs ih =>
    simp only [gridData, List.foldl_cons]
    rw [← gridData, ih, colData_length]

theorem colData_frame (vals : ℕ → ℕ → List ℕ) (w cw x : ℕ) {q j : ℕ}
    (hj : j < cw) (hvals : ∀ y, (vals x y).length = cw) (ys : List ℕ)
    (d : List ℕ) (hne : ∀ y ∈ ys, q ≠ y * w + x) :
    (colData vals w cw x ys d)[q * cw + j]? = d[q * cw + j]? := by
  induction ys generalizing d with
  | nil => rfl
  | cons y ys ih =>
    simp only [colData, List.foldl_cons]
    rw [← colData, ih _ fun y' hy' => hne y' (List.mem_cons_of_mem _ hy')]
    rcases cell_disjoint (hne y (List.mem_cons_self _ _)) hj with hlt | hge
    · exact writeChans_getElem?_lt _ _ _ _ hlt
    · exact writeChans_getElem?_ge (vals x y) _ _ _ (by rw [hvals y]; omega)

theorem colData_hit (vals : ℕ → ℕ → List ℕ) (w cw x : ℕ) {y0 j : ℕ}
    (hx : x < w) (hj : j < cw) (hvals : ∀ y, (vals x y).length = cw) :
    ∀ (ys : List ℕ) (d : List ℕ), y0 ∈ ys → ys.Nodup →
      (y0 * w + x) * cw + cw ≤ d.length →
      (colData vals w cw x ys d)[(y0 * w + x) * cw + j]? = (vals x y0)[j]? := by
  intro ys
  induction ys with
  | nil => intro d h; simp at h
  | cons y ys ih =>
    intro d hy0 hnd hbound
    obtain ⟨hyn, hnd'⟩ := List.nodup_cons.mp hnd
    simp only [colData, List.foldl_cons]
    rw [← colData]
    by_cases hyy : y = y0
    · subst hyy
      have hfr : ∀ y' ∈ ys, y * w + x ≠ y' * w + x := by
        intro y' hy'
        refine encode_ne_row (by omega) ?_
        intro he
        exact hyn (by rw [he]; exact hy')
      rw [colData_frame vals w cw x hj hvals ys _ hfr]
      exact writeChans_getElem?_hit (vals x y) d ((y * w + x) * cw) j
        (by rw [hvals y]; omega) (by rw [hvals y]; omega)
    · have hy0' : y0 ∈ ys := by
        rcases List.mem_cons.mp hy0 with h | h
        · exact absurd h.symm hyy
        · exact h
      exact ih _ hy0' hnd' (by rw [writeChans_length]; omega)

theorem gridData_frame (vals : ℕ → ℕ → List ℕ) (w cw : ℕ) {q j : ℕ}
    (hj : j < cw) (hvals : ∀ x y, (vals x y).length = cw) (ys : List ℕ) :
    ∀ (xs : List ℕ) (d : List ℕ), (∀ x' ∈ xs, ∀ y', q ≠ y' * w + x') →
      (gridData vals w cw xs ys d)[q * cw + j]? = d[q * cw + j]? := by
  intro xs
  induction xs with
  | nil => intro d _; rfl
  | cons x xs ih =>
    intro d hne
    simp only [gridData, List.foldl_cons]
    rw [← gridData, ih _ fun x' hx' => hne x' (List.mem_cons_of_mem _ hx')]
    exact colData_frame vals w cw x hj (hvals x) ys d
      fun y hy => hne x (List.mem_cons_self _ _) y

theorem gridData_hit (vals : ℕ → ℕ → List ℕ) (w cw : ℕ) {x0 y0 j : ℕ}
    (hx0 : x0 < w) (hj : j < cw) (hvals : ∀ x y, (vals x y).length = cw)
    (ys : List ℕ) (hy0 : y0 ∈ ys) (hynd : ys.Nodup) :
    ∀ (xs : List ℕ) (d : List ℕ), x0 ∈ xs → xs.Nodup → (∀ x ∈ xs, x < w) →
      (y0 * w + x0) * cw + cw ≤ d.length →
      (gridData vals w cw xs ys d)[(y0 * w + x0) * cw + j]? =
        (vals x0 y0)[j]? := by
  intro xs
  induction xs with
  | nil => intro d h; simp at h
  | cons x xs ih =>
    intro d hx0m hnd hxb hbound
    obtain ⟨hxn, hnd'⟩ := List.nodup_cons.mp hnd
    simp only [gridData, List.foldl_cons]
    rw [← gridData]
    by_cases hxx : x = x0
    · subst hxx
      have hfr : ∀ x' ∈ xs, ∀ y', y0 * w + x ≠ y' * w + x' := by
        intro x' hx' y'
        refine encode_ne_col hx0 (hxb x' (List.mem_cons_of_mem _ hx')) ?_
        intro he
        exact hxn (by rw [he]; exact hx')
      rw [gridData_frame vals w cw hj hvals ys xs _ hfr]
      exact colData_hit vals w cw x hx0 hj (hvals x) ys d hy0 hynd hbound
    · have hx0' : x0 ∈ xs := by
        rcases List.mem_cons.mp hx0m with h | h
        · exact absurd h.symm hxx
        · exact h
      exact ih _ hx0' hnd' (fun x' hx' => hxb x' (List.mem_cons_of_mem _ hx'))
        (by rw [colData_length]; omega)

theorem cellBound {w h x y cw : ℕ} (hx : x < w) (hy : y < h) :
    (y * w + x) * cw + cw ≤ w * h * cw := by
  have h1 : y * w + x + 1 ≤ w * h :=
    calc y * w + x + 1 ≤ y * w + w := by omega
    _ = (y + 1) * w := by ring
    _ ≤ h * w := mul_le_mul_right' (by omega) w
    _ = w * h := mul_comm _ _
  calc (y * w + x) * cw + cw = (y * w + x + 1) * cw := by ring
  _ ≤ w * h * cw := mul_le_mul_right' h1 cw

theorem put_pixel_rgb (img : DynamicImage) (hc : img.color = .RGB 8)
    (x y : ℕ) (p : Fin 4 → ℕ) :
    put_pixel img x y p =
      { img with data :=
        writeChans img.data ((y * img.width + x) * 3) [p 0, p 1, p 2] } := by
  unfold put_pixel
  rw [hc]

theorem put_pixel_rgba (img : DynamicImage) (hc : img.color = .RGBA 8)
    (x y : ℕ) (p : Fin 4 → ℕ) :
    put_pixel img x y p =
      { img with data :=
        writeChans img.data ((y * img.width + x) * 4) [p 0, p 1, p 2, p 3] } := by
  unfold put_pixel
  rw [hc]

theorem foldl_put_pixel_col (C : ColorType) (cw : ℕ)
    (bytesOf : (Fin 4 → ℕ) → List ℕ)
    (hput : ∀ (img : DynamicImage), img.color = C → ∀ (x y : ℕ) (p : Fin 4 → ℕ),
      put_pixel img x y p =
        { img with data :=
          writeChans img.data ((y * img.width + x) * cw) (bytesOf p) })
    (g : ℕ → ℕ → Fin 4 → ℕ) (x : ℕ) :
    ∀ (ys : List ℕ) (img : DynamicImage), img.color = C →
      ys.foldl (fun acc y => put_pixel acc x y (g x y)) img =
        { img with data :=
          (colData (fun x y => bytesOf (g x y)) img.width cw x ys img.data) } := by
  intro ys
  induction ys with
  | nil => intro img hc; rfl
  | cons y ys ih =>
    intro img hc
    rw [List.foldl_cons, hput img hc x y (g x y),
      ih { img with data :=
        (writeChans img.data ((y * img.width + x) * cw) (bytesOf (g x y))) } hc]
    rfl

theorem foldl_put_pixel_grid (C : ColorType) (cw : ℕ)
    (bytesOf : (Fin 4 → ℕ) → List ℕ)
    (hput : ∀ (img : DynamicImage), img.color = C → ∀ (x y : ℕ) (p : Fin 4 → ℕ),
      put_pixel img x y p =
        { img with data :=
          writeChans img.data ((y * img.width + x) * cw) (bytesOf p) })
    (g : ℕ → ℕ → Fin 4 → ℕ) :
    ∀ (xs ys : List ℕ) (img : DynamicImage), img.color = C →
      xs.foldl (fun acc x =>
          ys.foldl (fun acc2 y => put_pixel acc2 x y (g x y)) acc) img =
        { img with data :=
          (gridData (fun x y => bytesOf (g x y)) img.width cw xs ys img.data) } := by
  intro xs
  induction xs with
  | nil => intro ys img hc; rfl
  | cons x xs ih =>
    intro ys img hc
    rw [List.foldl_cons, foldl_put_pixel_col C cw bytesOf hput g x ys img hc,
      ih ys { img with data :=
        (colData (fun x y => bytesOf (g x y)) img.width cw x ys img.data) } hc]
    rfl

theorem get_pixel_rgb8 (w h : ℕ) (d : List ℕ) (x y : ℕ) (c : Fin 4) :
    get_pixel (DynamicImage.mk w h (.RGB 8) d) x y c =
      if c.val = 3 then 255 else (d[(y * w + x) * 3 + c.val]?).getD 0 := rfl

theorem get_pixel_rgba8 (w h : ℕ) (d : List ℕ) (x y : ℕ) (c : Fin 4) :
    get_pixel (DynamicImage.mk w h (.RGBA 8) d) x y c =
      (d[(y * w + x) * 4 + c.val]?).getD 0 := rfl

/-- Core fact about `create_diff_image` on a supported first image: it
returns the freshly allocated image of `image1`'s size and layout, whose
every written channel is the per-channel `abs_diff` of the two source
pixels (in their 4-channel RGBA views).  On the 3-channel RGB layout the
computed alpha difference is dropped on write, hence the guard on `c`. -/
theorem create_diff_image_pixels (i1 i2 : DynamicImage)
    (hc : i1.color = .RGB 8 ∨ i1.color = .RGBA 8) :
    ∃ out, create_diff_image i1 i2 = .ok out ∧ out.width = i1.width ∧
      out.height = i1.height ∧ out.color = i1.color ∧
      ∀ (x y : ℕ) (c : Fin 4), x < i1.width → y < i1.height →
        (c.val < 3 ∨ i1.color = .RGBA 8) →
        get_pixel out x y c =
          abs_diff (get_pixel i1 x y c) (get_pixel i2 x y c) := by
  rcases hc with hc | hc
  · have halloc : allocDiff i1 = .ok (new_rgb8 i1.width i1.height) := by
      unfold allocDiff
      rw [hc]
    have hWL : writeLoop i1 i2 i1.width i1.height (new_rgb8 i1.width i1.height) =
        DynamicImage.mk i1.width i1.height (.RGB 8)
          (gridData (fun x y => [diffPixel i1 i2 x y 0, diffPixel i1 i2 x y 1,
            diffPixel i1 i2 x y 2]) i1.width 3 (List.range i1.width)
            (List.range i1.height)
            (List.replicate (i1.width * i1.height * 3) 0)) :=
      foldl_put_pixel_grid (.RGB 8) 3 (fun p => [p 0, p 1, p 2])
        (fun img hcc x y p => put_pixel_rgb img hcc x y p) (diffPixel i1 i2)
        (List.range i1.width) (List.range i1.height)
        (new_rgb8 i1.width i1.height) rfl
    refine ⟨writeLoop i1 i2 i1.width i1.height (new_rgb8 i1.width i1.height),
      ?_, ?_, ?_, ?_, ?_⟩
    · unfold create_diff_image
      rw [halloc]
    · rw [hWL]
    · rw [hWL]
    · rw [hWL]
      exact hc.symm
    · intro x y c hx hy hcv
      have hcv3 : c.val < 3 := by
        rcases hcv with h | h
        · exact h
        · rw [hc] at h
          exact absurd h (by decide)
      rw [hWL, get_pixel_rgb8, if_neg (by omega)]
      rw [gridData_hit (fun x y => [diffPixel i1 i2 x y 0, diffPixel i1 i2 x y 1,
          diffPixel i1 i2 x y 2]) i1.width 3 hx hcv3 (fun _ _ => rfl)
        (List.range i1.height) (List.mem_range.mpr hy)
        (List.nodup_range i1.height) (List.range i1.width) _
        (List.mem_range.mpr hx) (List.nodup_range i1.width)
        (fun x' hx' => List.mem_range.mp hx')
        (by rw [List.length_replicate]; exact cellBound hx hy)]
      obtain ⟨cv, hc4⟩ := c
      have hcv' : cv < 3 := hcv3
      interval_cases cv <;> rfl
  · have halloc : allocDiff i1 = .ok (new_rgba8 i1.width i1.height) := by
      unfold allocDiff
      rw [hc]
    have hWL : writeLoop i1 i2 i1.width i1.height (new_rgba8 i1.width i1.height) =
        DynamicImage.mk i1.width i1.height (.RGBA 8)
          (gridData (fun x y => [diffPixel i1 i2 x y 0, diffPixel i1 i2 x y 1,
            diffPixel i1 i2 x y 2, diffPixel i1 i2 x y 3]) i1.width 4
            (List.range i1.width) (List.range i1.height)
            (List.replicate (i1.width * i1.height * 4) 0)) :=
      foldl_put_pixel_grid (.RGBA 8) 4 (fun p => [p 0, p 1, p 2, p 3])
        (fun img hcc x y p => put_pixel_rgba img hcc x y p) (diffPixel i1 i2)
        (List.range i1.width) (List.range i1.height)
        (new_rgba8 i1.width i1.height) rfl
    refine ⟨writeLoop i1 i2 i1.width i1.height (new_rgba8 i1.width i1.height),
      ?_, ?_, ?_, ?_, ?_⟩
    · unfold create_diff_image
      rw [halloc]
    · rw [hWL]
    · rw [hWL]
    · rw [hWL]
      exact hc.symm
    · intro x y c hx hy hcv
      rw [hWL, get_pixel_rgba8]
      rw [gridData_hit (fun x y => [diffPixel i1 i2 x y 0, diffPixel i1 i2 x y 1,
          diffPixel i1 i2 x y 2, diffPixel i1 i2 x y 3]) i1.width 4 hx c.isLt
          (fun _ _ => rfl)
        (List.range i1.height) (List.mem_range.mpr hy)
        (List.nodup_range i1.height) (List.range i1.width) _
        (List.mem_range.mpr hx) (List.nodup_range i1.width)
        (fun x' hx' => List.mem_range.mp hx')
        (by rw [List.length_replicate]; exact cellBound hx hy)]
      obtain ⟨cv, hc4⟩ := c
      interval_cases cv <;> rfl

/-- C5: on two images of equal width and height sharing a supported
layout (RGB-8 or RGBA-8), `create_diff_image` builds an output with the
same width, height and layout as `image1`, whose every channel at every
in-range pixel is `abs_diff` of the corresponding input channels (on the
RGBA views `get_pixel` exposes); for the 3-channel RGB layout the fourth
computed channel is dropped on write, so only channels 0–2 are asserted
there. -/
theorem create_diff_image_spec (image1 image2 : DynamicImage)
    (hw : image1.width = image2.width) (hh : image1.height = image2.height)
    (hcol : image1.color = image2.color)
    (hsup : image1.color = .RGB 8 ∨ image1.color = .RGBA 8) :
    ∃ out, create_diff_image image1 image2 = .ok out ∧
      out.width = image1.width ∧ out.height = image1.height ∧
      out.color = image1.color ∧
      ∀ (x y : ℕ) (c : Fin 4), x < image1.width → y < image1.height →
        (c.val < 3 ∨ image1.color = .RGBA 8) →
        get_pixel out x y c =
          abs_diff (get_pixel image1 x y c) (get_pixel image2 x y c) :=
  create_diff_image_pixels image1 image2 hsup

/-- C5 witness: two concrete 1×1 RGBA images. -/
theorem create_diff_image_spec_witness :
    ∃ out, create_diff_image (DynamicImage.mk 1 1 (.RGBA 8) [10, 20, 30, 40])
        (DynamicImage.mk 1 1 (.RGBA 8) [5, 25, 15, 40]) = .ok out ∧
      out.width = 1 ∧ out.height = 1 ∧ out.color = .RGBA 8 ∧
      ∀ (x y : ℕ) (c : Fin 4), x < 1 → y < 1 →
        (c.val < 3 ∨ ColorType.RGBA 8 = ColorType.RGBA 8) →
        get_pixel out x y c =
          abs_diff
            (get_pixel (DynamicImage.mk 1 1 (.RGBA 8) [10, 20, 30, 40]) x y c)
            (get_pixel (DynamicImage.mk 1 1 (.RGBA 8) [5, 25, 15, 40]) x y c) :=
  create_diff_image_spec (DynamicImage.mk 1 1 (.RGBA 8) [10, 20, 30, 40])
    (DynamicImage.mk 1 1 (.RGBA 8) [5, 25, 15, 40]) rfl rfl rfl (Or.inr rfl)

/-- C6: when `image1`'s layout is neither RGB-8 nor RGBA-8 (its depth is
always 8 on layouts a `DynamicImage` can carry), `create_diff_image`
fails with the unsupported-color-mode error in the allocation `match`,
before any pixel is processed; no image is built, so nothing is ever
handed to the external codec and no file is written. -/
theorem create_diff_image_unsupported (image1 image2 : DynamicImage)
    (h8 : image1.color.depth = 8) (h1 : image1.color ≠ .RGB 8)
    (h2 : image1.color ≠ .RGBA 8) :
    create_diff_image image1 image2 =
      .error ("color mode " ++ colorTypeRepr image1.color ++
        " not yet supported") := by
  unfold create_diff_image allocDiff
  cases hcol : image1.color with
  | RGB d =>
    rw [hcol] at h8 h1
    simp only [ColorType.depth] at h8
    subst h8
    exact absurd rfl h1
  | RGBA d =>
    rw [hcol] at h8 h2
    simp only [ColorType.depth] at h8
    subst h8
    exact absurd rfl h2
  | Gray d => rfl
  | GrayA d => rfl
  | BGR d => rfl
  | BGRA d => rfl
  | Palette d => rfl

/-- C6 witness: a 2×2 grayscale first image. -/
theorem create_diff_image_unsupported_witness :
    create_diff_image (DynamicImage.mk 2 2 (.Gray 8) (List.replicate 4 0))
        (DynamicImage.mk 2 2 (.Gray 8) (List.replicate 4 7)) =
      .error ("color mode " ++ colorTypeRepr (ColorType.Gray 8) ++
        " not yet supported") ∧
      ("color mode " ++ colorTypeRepr (ColorType.Gray 8) ++
        " not yet supported") = "color mode Gray(8) not yet supported" :=
  ⟨create_diff_image_unsupported _ _ rfl (by decide) (by decide), by decide⟩

/-- C10: the supported-layout check, the output allocation and the
iteration bounds of `create_diff_image` read only `image1`: with an RGB-8
first image the call succeeds whatever `image2`'s layout is (no
hypothesis constrains it), and the generator diffs against `image2`'s
pixels through their 4-channel RGBA-converted `get_pixel` view.  The
dimension hypotheses only pin the in-range pixel reads of the external
crate (an out-of-range `get_pixel` would be a panic of the crate, not an
examined dimension); no hypothesis mentions `image2.color`. -/
theorem create_diff_image_ignores_image2_layout (image1 image2 : DynamicImage)
    (hc : image1.color = .RGB 8) (hw : image2.width = image1.width)
    (hh : image2.height = image1.height) :
    ∃ out, create_diff_image image1 image2 = .ok out ∧
      out.width = image1.width ∧ out.height = image1.height ∧
      out.color = .RGB 8 ∧
      ∀ (x y : ℕ) (c : Fin 4), x < image1.width → y < image1.height →
        c.val < 3 →
        get_pixel out x y c =
          abs_diff (get_pixel image1 x y c) (get_pixel image2 x y c) := by
  obtain ⟨out, hok, hwid, hh2, hcol2, hpix⟩ :=
    create_diff_image_pixels image1 image2 (Or.inl hc)
  exact ⟨out, hok, hwid, hh2, hc ▸ hcol2,
    fun x y c hx hy hcv => hpix x y c hx hy (Or.inl hcv)⟩

/-- C10 witness: an RGB-8 first image against a grayscale second image —
no unsupported-color-mode error, and the diff is taken against the gray
pixel's `[l, l, l, 255]` RGBA view. -/
theorem create_diff_image_ignores_image2_layout_witness :
    ∃ out, create_diff_image (DynamicImage.mk 1 1 (.RGB 8) [10, 20, 30])
        (DynamicImage.mk 1 1 (.Gray 8) [255]) = .ok out ∧
      out.width = 1 ∧ out.height = 1 ∧ out.color = .RGB 8 ∧
      ∀ (x y : ℕ) (c : Fin 4), x < 1 → y < 1 → c.val < 3 →
        get_pixel out x y c =
          abs_diff (get_pixel (DynamicImage.mk 1 1 (.RGB 8) [10, 20, 30]) x y c)
            (get_pixel (DynamicImage.mk 1 1 (.Gray 8) [255]) x y c) :=
  create_diff_image_ignores_image2_layout (DynamicImage.mk 1 1 (.RGB 8) [10, 20, 30])
    (DynamicImage.mk 1 1 (.Gray 8) [255]) rfl rfl rfl

end Diffimg
